import Mathlib

/-!
Shallow embedding of the fuzzy subtitle-matching engine of the
stremio-github-subtitles repository (class `FuzzyMatcher` in
`src/services/movie-database.js`, plus the request handler defaults in
`src/handlers/subtitles-handler.js`), together with proofs settling the
frozen claims about its natural-language specification.

Modeling conventions:
* JS strings are `List Char`; concrete statements use string literals via
  `String.data`.
* JS numbers are modeled as exact rationals (`ℚ`); every constant in the
  engine is a small decimal fraction, exactly representable.
* Each JS regular expression is embedded as an explicit scanning function,
  documented with the regex it implements.
* `new RegExp` applied to an untrusted identifier can throw `SyntaxError`
  in JS; the identifier matcher is therefore embedded with an `Option`
  result (`none` = the exception escapes the matcher).
* Left-to-right global `String.prototype.replace` is modeled by fueled
  scans (`fuel = length of the remaining string`, which always suffices
  because every step consumes at least one character).
-/

namespace Engine

/-- JS regex word character `\w = [A-Za-z0-9_]`. -/
def isWordChar (c : Char) : Bool :=
  c.isAlpha || c.isDigit || c = '_'

/-- JS regex whitespace `\s` (ASCII part plus NBSP; the engine's inputs are
file names, for which this coincides with the full JS class). -/
def isJsSpace (c : Char) : Bool :=
  c = ' ' || c = '\t' || c = '\n' || c = '\x0d' || c = '\x0b' || c = '\x0c' ||
  c = ' '

/-- ASCII lower-casing, agreeing with `String.prototype.toLowerCase` on the
ASCII range relevant to the engine (accented Latin-1 letters are already
lower-case in every statement below). -/
def lowerChar (c : Char) : Char := c.toLower

def toLowerL (s : List Char) : List Char := s.map lowerChar

/-- `l` starts with `p` (literal prefix test). -/
def startsWithL : List Char → List Char → Bool
  | [], _ => true
  | _ :: _, [] => false
  | p :: ps, c :: cs => p = c && startsWithL ps cs

/-- `String.prototype.includes`: `sub` occurs somewhere in `s`. -/
def containsSub (s sub : List Char) : Bool :=
  match s with
  | [] => startsWithL sub []
  | _ :: rest => startsWithL sub s || containsSub rest sub

/-- `String.prototype.indexOf`: index of the first occurrence of `sub`. -/
def indexOfSub (s sub : List Char) : Option Nat :=
  match s with
  | [] => if startsWithL sub [] then some 0 else none
  | _ :: rest =>
    if startsWithL sub s then some 0
    else (indexOfSub rest sub).map (· + 1)

/-- JS `\b` between an optional left character and an optional right
character: exactly one side is a word character (a string end counts as
non-word). -/
def wordBoundary (l r : Option Char) : Bool :=
  (l.elim false isWordChar) != (r.elim false isWordChar)

/-- Generic model of one global left-to-right `String.prototype.replace`:
`m prev s` inspects the suffix `s` of the original string (`prev` is the
original character just before it) and returns `some (k, rep)` when the
regex matches a prefix of `s` of length `k ≥ 1`, to be replaced by `rep`.
Scanning resumes after the matched text; as with a JS global regex, later
matches are searched in the original string, not in the replacement. The
fuel is the length of the string, which always suffices because every step
consumes at least one character. -/
def scanReplace (m : Option Char → List Char → Option (Nat × List Char)) :
    Nat → Option Char → List Char → List Char
  | 0, _, s => s
  | _ + 1, _, [] => []
  | fuel + 1, prev, c :: rest =>
    match m prev (c :: rest) with
    | some (k, rep) =>
      if k = 0 then c :: scanReplace m fuel (some c) rest
      else rep ++ scanReplace m fuel (((c :: rest).take k).getLast?)
             ((c :: rest).drop k)
    | none => c :: scanReplace m fuel (some c) rest

def runReplace (m : Option Char → List Char → Option (Nat × List Char))
    (s : List Char) : List Char :=
  scanReplace m s.length none s

/-- The character-normalization map of the `FuzzyMatcher` constructor
(`this.charMap`); sequential global single-character replaces with
disjoint ASCII-producing right-hand sides are equivalent to one pass. -/
def charMapLookup (c : Char) : Option (List Char) :=
  if c = 'à' || c = 'á' || c = 'â' || c = 'ã' || c = 'ä' || c = 'å' then some ['a']
  else if c = 'æ' then some ['a', 'e']
  else if c = 'ç' then some ['c']
  else if c = 'è' || c = 'é' || c = 'ê' || c = 'ë' then some ['e']
  else if c = 'ì' || c = 'í' || c = 'î' || c = 'ï' then some ['i']
  else if c = 'ñ' then some ['n']
  else if c = 'ò' || c = 'ó' || c = 'ô' || c = 'õ' || c = 'ö' || c = 'ø' then some ['o']
  else if c = 'ù' || c = 'ú' || c = 'û' || c = 'ü' then some ['u']
  else if c = 'ý' || c = 'ÿ' then some ['y']
  else if c = 'ß' then some ['s', 's']
  else if c = 'œ' then some ['o', 'e']
  else none

def applyCharMap (s : List Char) : List Char :=
  (s.map (fun c => (charMapLookup c).getD [c])).flatten

/-- Matcher for `new RegExp("\\b" + escaped + "\\b", "gi")` on an already
lower-cased string: the literal `pat` occurs at the scan position with a
word boundary on both sides (for keys such as `&` whose edge characters
are non-word, `\b` demands an adjacent word character, faithful to JS). -/
def wholeWordAt (pat : List Char) (prev : Option Char) (s : List Char) : Bool :=
  startsWithL pat s && wordBoundary prev pat.head? &&
  wordBoundary pat.getLast? ((s.drop pat.length).head?)

/-- `this.abbreviations`, in object-property (insertion) order. -/
def abbreviationsList : List (List Char × List Char) :=
  [("vs".data, "versus".data), ("pt".data, "part".data),
   ("vol".data, "volume".data), ("ep".data, "episode".data),
   ("ch".data, "chapter".data), ("no".data, "number".data),
   ("nr".data, "number".data), ("num".data, "number".data),
   ("&".data, "and".data), ("w/".data, "with".data),
   ("wo/".data, "without".data)]

def expandAbbrevs (s : List Char) : List Char :=
  abbreviationsList.foldl
    (fun acc p =>
      runReplace
        (fun prev t =>
          if wholeWordAt p.1 prev t then some (p.1.length, p.2) else none)
        acc)
    s

/-- `\b` to the left of an alternative starting with a word character. -/
def leftWB (prev : Option Char) : Bool := prev.elim true (fun c => !isWordChar c)

/-- `\b` to the right of an alternative ending with a word character. -/
def rightWB (s : List Char) : Bool := s.head?.elim true (fun c => !isWordChar c)

/-- One literal alternative inside `\b( ... )\b`: the literal followed by a
right word boundary. -/
def litAlt (l : List Char) (s : List Char) : Option Nat :=
  if startsWithL l s && rightWB (s.drop l.length) then some l.length else none

/-- `subs?` inside `\b( ... )\b`: greedy, `subs` tried before `sub`. -/
def subsAlt (s : List Char) : Option Nat :=
  (litAlt "subs".data s).orElse (fun _ => litAlt "sub".data s)

/-- `pre.post` with a regex any-char dot and trailing `\b` (the dot does
not match a newline). -/
def dotLitAlt (pre post : List Char) (s : List Char) : Option Nat :=
  if startsWithL pre s then
    match s.drop pre.length with
    | c :: r2 =>
      if c ≠ '\n' && startsWithL post r2 && rightWB (r2.drop post.length)
      then some (pre.length + 1 + post.length) else none
    | [] => none
  else none

/-- `directors?.cut` inside `\b( ... )\b`: greedy optional `s` first. -/
def directorsCutAlt (s : List Char) : Option Nat :=
  (dotLitAlt "directors".data "cut".data s).orElse
    (fun _ => dotLitAlt "director".data "cut".data s)

/-- `hard\.?coded` inside `\b( ... )\b`: greedy optional literal dot. -/
def hardCodedAlt (s : List Char) : Option Nat :=
  (litAlt "hard.coded".data s).orElse (fun _ => litAlt "hardcoded".data s)

/-- A `\b(alt1|alt2|...)\b` matcher: alternatives are tried in regex
order at the scan position; every alternative starts and ends with a word
character, so the outer boundaries are as checked here. -/
def wordAltsAt (alts : List (List Char → Option Nat)) (prev : Option Char)
    (s : List Char) : Option Nat :=
  if leftWB prev then alts.findSome? (fun f => f s) else none

/-- Release pattern 1: encoding/quality/source tags. -/
def releaseP1Alts : List (List Char → Option Nat) :=
  ["yify", "rarbg", "etrg", "ettv", "x264", "h264", "h265", "hevc", "xvid",
   "divx", "ac3", "dts", "bluray", "brrip", "webrip", "hdtv", "dvdrip",
   "720p", "1080p", "2160p", "4k", "uhd"].map (fun w => litAlt w.data)

/-- Release pattern 2: scene tags (with the `directors?.cut` member). -/
def releaseP2Alts : List (List Char → Option Nat) :=
  (["internal", "proper", "repack", "dubbed", "subbed", "unrated",
    "extended"].map (fun w => litAlt w.data)) ++
  [directorsCutAlt] ++
  (["theatrical", "imax", "limited", "festival", "screener", "cam", "ts",
    "tc"].map (fun w => litAlt w.data))

/-- Release pattern 3: audio tags (`5\.1`, `7\.1` have literal dots). -/
def releaseP3Alts : List (List Char → Option Nat) :=
  ["aac", "mp3", "flac", "dts-hd", "truehd", "atmos", "dolby", "surround",
   "5.1", "7.1"].map (fun w => litAlt w.data)

/-- Release pattern 4: `multi|dual|audio|subs?|hard\.?coded|hc|forced`. -/
def releaseP4Alts : List (List Char → Option Nat) :=
  (["multi", "dual", "audio"].map (fun w => litAlt w.data)) ++
  [subsAlt, hardCodedAlt] ++
  (["hc", "forced"].map (fun w => litAlt w.data))

/-- Distance (in characters, inclusive) to the first closing bracket, with
regex `.` semantics: fails on a newline or at the end of the string. -/
def closeSpan (cls : Char) : List Char → Option Nat
  | [] => none
  | c :: rest =>
    if c = cls then some 1
    else if c = '\n' then none
    else (closeSpan cls rest).map (· + 1)

/-- Matcher for the lazy bracket patterns `\[.*?\]` and `\{.*?\}`. -/
def bracketAt (opn cls : Char) (s : List Char) : Option Nat :=
  match s with
  | c :: rest => if c = opn then (closeSpan cls rest).map (· + 1) else none
  | [] => none

/-- A plain literal, no boundary (for the group of release pattern 7). -/
def litPlain (l : List Char) (s : List Char) : Option Nat :=
  if startsWithL l s then some l.length else none

/-- `\d{4}` (exactly four digits consumed, no boundary). -/
def fourDigitsPlain (s : List Char) : Option Nat :=
  match s with
  | a :: b :: c :: d :: _ =>
    if a.isDigit && b.isDigit && c.isDigit && d.isDigit then some 4 else none
  | _ => none

/-- The quality alternatives of release pattern 7
`\(.*?(720p|1080p|2160p|4k|x264|h264|h265|bluray|webrip|hdtv|dvdrip|year|\d{4}).*?\)`. -/
def p7Alts : List (List Char → Option Nat) :=
  (["720p", "1080p", "2160p", "4k", "x264", "h264", "h265", "bluray",
    "webrip", "hdtv", "dvdrip", "year"].map (fun w => litPlain w.data)) ++
  [fourDigitsPlain]

/-- Backtracking search for `.*?(alts).*?\)` after the opening parenthesis
of release pattern 7: the lazy dot-star advances one (non-newline)
character at a time; at each offset the alternatives are tried in order,
and a chosen alternative must still reach a closing parenthesis.  Returns
the number of characters consumed after the `(`. -/
def p7Search : List Char → Option Nat
  | [] => none
  | c :: rest =>
    match
      p7Alts.findSome? (fun f =>
        match f (c :: rest) with
        | some k => (closeSpan ')' ((c :: rest).drop k)).map (k + ·)
        | none => none)
    with
    | some n => some n
    | none => if c = '\n' then none else (p7Search rest).map (· + 1)

/-- Matcher for release pattern 7 at an opening parenthesis. -/
def p7At (s : List Char) : Option Nat :=
  match s with
  | c :: rest => if c = '(' then (p7Search rest).map (· + 1) else none
  | [] => none

/-- Matcher for release pattern 8 (regex `-\w+$`): a hyphen followed by
one or more word characters running to the end of the string. -/
def dashTailAt (s : List Char) : Option Nat :=
  match s with
  | '-' :: rest =>
    if rest ≠ [] && rest.all isWordChar then some (rest.length + 1) else none
  | _ => none

/-- Release pattern 9 `\.(mkv|mp4|avi|mov|wmv|flv|webm|m4v)$`. -/
def videoExtAt (s : List Char) : Option Nat :=
  match s with
  | '.' :: rest =>
    (["mkv", "mp4", "avi", "mov", "wmv", "flv", "webm", "m4v"].map
        String.data).findSome?
      (fun e => if rest = e then some (e.length + 1) else none)
  | _ => none

def toSpaceMatcher (f : Option Char → List Char → Option Nat) :
    Option Char → List Char → Option (Nat × List Char) :=
  fun prev s => (f prev s).map (fun k => (k, [' ']))

def openBrace : Char := Char.ofNat 123

def closeBrace : Char := Char.ofNat 125

/-- Apply `this.releasePatterns` in order, each as a global replace by one
space (`normalized.replace(pattern, ' ')`). -/
def stripReleasePatterns (s : List Char) : List Char :=
  let s1 := runReplace (toSpaceMatcher (wordAltsAt releaseP1Alts)) s
  let s2 := runReplace (toSpaceMatcher (wordAltsAt releaseP2Alts)) s1
  let s3 := runReplace (toSpaceMatcher (wordAltsAt releaseP3Alts)) s2
  let s4 := runReplace (toSpaceMatcher (wordAltsAt releaseP4Alts)) s3
  let s5 := runReplace (toSpaceMatcher (fun _ t => bracketAt '[' ']' t)) s4
  let s6 := runReplace (toSpaceMatcher (fun _ t => bracketAt openBrace closeBrace t)) s5
  let s7 := runReplace (toSpaceMatcher (fun _ t => p7At t)) s6
  let s8 := runReplace (toSpaceMatcher (fun _ t => dashTailAt t)) s7
  runReplace (toSpaceMatcher (fun _ t => videoExtAt t)) s8

def isRomanChar (c : Char) : Bool := c = 'i' || c = 'v' || c = 'x'

/-- The `romanToNum` table of the roman-numeral callback. -/
def romanToNum (r : List Char) : Option (List Char) :=
  if r = "i".data then some "1".data
  else if r = "ii".data then some "2".data
  else if r = "iii".data then some "3".data
  else if r = "iv".data then some "4".data
  else if r = "v".data then some "5".data
  else if r = "vi".data then some "6".data
  else if r = "vii".data then some "7".data
  else if r = "viii".data then some "8".data
  else if r = "ix".data then some "9".data
  else if r = "x".data then some "10".data
  else none

/-- Matcher for `/\b(?:part\s+)?([ivx]+)\b/g` with the source's callback:
a mapped roman group is replaced by its digits, an unmapped one keeps the
whole matched text.  The optional `part\s+` group is greedy; `[ivx]+` is
greedy and can only satisfy the trailing `\b` in its maximal form. -/
def romanAt (prev : Option Char) (s : List Char) : Option (Nat × List Char) :=
  if leftWB prev then
    let withPart : Option (Nat × List Char) :=
      if startsWithL "part".data s then
        let r := s.drop 4
        let sp := r.takeWhile isJsSpace
        if sp ≠ [] then
          let r2 := r.drop sp.length
          let ro := r2.takeWhile isRomanChar
          if ro ≠ [] && rightWB (r2.drop ro.length) then
            let len := 4 + sp.length + ro.length
            some (len, (romanToNum ro).getD (s.take len))
          else none
        else none
      else none
    match withPart with
    | some m => some m
    | none =>
      let ro := s.takeWhile isRomanChar
      if ro ≠ [] && rightWB (s.drop ro.length) then
        some (ro.length, (romanToNum ro).getD ro)
      else none
  else none

/-- Collapse every maximal whitespace run to a single space
(`.replace(/\s+/g, ' ')`). -/
def collapseSpaces : List Char → List Char
  | [] => []
  | [c] => if isJsSpace c then [' '] else [c]
  | c :: d :: rest =>
    if isJsSpace c && isJsSpace d then collapseSpaces (d :: rest)
    else (if isJsSpace c then ' ' else c) :: collapseSpaces (d :: rest)

def trimL (s : List Char) : List Char :=
  ((s.dropWhile isJsSpace).reverse.dropWhile isJsSpace).reverse

/-- `String.prototype.split(' ')`. -/
def splitSp : List Char → List (List Char)
  | [] => [[]]
  | c :: rest =>
    match splitSp rest with
    | t :: ts => if c = ' ' then [] :: t :: ts else (c :: t) :: ts
    | [] => [[]]

/-- `this.stopWords` (the `Set` constructor de-duplicates; list membership
gives the same predicate). -/
def stopWords : List (List Char) :=
  ["the", "a", "an", "and", "or", "but", "in", "on", "at", "to", "for",
   "of", "with", "by", "is", "are", "was", "were", "this", "that", "these",
   "those", "be", "been", "being", "have", "has", "had", "do", "does",
   "did", "will", "would", "could", "should", "may", "might", "must",
   "can", "shall", "de", "la", "le", "el", "les", "los", "las", "un",
   "une", "der", "die", "das", "ein", "eine", "il", "lo", "la", "gli",
   "le", "i"].map String.data

def isStopWord (w : List Char) : Bool := stopWords.contains w

/-- `words.join(' ')`. -/
def joinSp : List (List Char) → List Char
  | [] => []
  | [w] => w
  | w :: rest => w ++ ' ' :: joinSp rest

/-- `FuzzyMatcher.normalizeText`: lowercase; fold international
characters; expand abbreviations (whole-word, in object order); strip the
nine release-pattern regexes (each replaced by a space); rewrite roman
numerals; drop apostrophes (the source's character class `['']` holds two
ASCII apostrophes); replace the remaining non-word characters by spaces;
collapse and trim whitespace; remove stop words. -/
def normalizePre (text : List Char) : List Char :=
  let s0 := toLowerL text
  let s1 := applyCharMap s0
  let s2 := expandAbbrevs s1
  let s3 := stripReleasePatterns s2
  let s4 := runReplace romanAt s3
  let s5 := s4.filter (fun c => c ≠ '\'')
  let s6 := s5.map (fun c => if !isWordChar c && !isJsSpace c then ' ' else c)
  trimL (collapseSpaces s6)

def normalizeText (text : List Char) : List Char :=
  if text = [] then []
  else joinSp ((splitSp (normalizePre text)).filter
    (fun w => w ≠ [] && !isStopWord w))

/-- Levenshtein distance, one-column helper: given `levxs = lev xs`,
computes `lev (x :: xs)` by structural recursion on the second string. -/
def levCons (x : Char) (xs : List Char) (levxs : List Char → Nat) :
    List Char → Nat
  | [] => xs.length + 1
  | y :: ys =>
    if x = y then levxs ys
    else 1 + min (levxs ys) (min (levCons x xs levxs ys) (levxs (y :: ys)))

/-- Levenshtein edit distance (unit costs), as computed by the
`fastest-levenshtein` package's `distance`. -/
def lev : List Char → List Char → Nat
  | [], ys => ys.length
  | x :: xs, ys => levCons x xs (lev xs) ys

/-- `Math.min` on rationals, by the decidable order (kernel-computable,
unlike the lattice `min` of `ℚ`). -/
def minQ (a b : ℚ) : ℚ := if a ≤ b then a else b

/-- `Math.abs (a - b)`, by the decidable order. -/
def absDiffQ (a b : ℚ) : ℚ := if a ≤ b then b - a else a - b

def dedupAdjAux (p : Char) : List Char → List Char
  | [] => []
  | c :: rest => if c = p then dedupAdjAux p rest else c :: dedupAdjAux c rest

/-- Collapse runs of a repeated character (regex `(.)\1+` → `$1`). -/
def dedupAdj : List Char → List Char
  | [] => []
  | c :: rest => c :: dedupAdjAux c rest

/-- A global literal replace with no boundaries
(`code.replace(new RegExp(from, 'g'), to)`). -/
def replaceAllLit (pat rep : List Char) (s : List Char) : List Char :=
  runReplace
    (fun _ t => if startsWithL pat t then some (pat.length, rep) else none) s

/-- The `phoneticMap` of `generatePhoneticCode`, in object order. -/
def phoneticPairs : List (List Char × List Char) :=
  [("ph".data, "f".data), ("gh".data, "f".data), ("ck".data, "k".data),
   ("qu".data, "k".data), ("x".data, "ks".data), ("th".data, "t".data),
   ("sh".data, "s".data), ("ch".data, "s".data), ("wh".data, "w".data)]

def isVowel (c : Char) : Bool :=
  c = 'a' || c = 'e' || c = 'i' || c = 'o' || c = 'u'

/-- `FuzzyMatcher.generatePhoneticCode`: lowercase, collapse doubled
letters, apply the digraph table sequentially, keep the first character
and drop the remaining vowels. -/
def generatePhoneticCode (word : List Char) : List Char :=
  if word = [] then []
  else
    let c1 := dedupAdj (toLowerL word)
    let c2 := phoneticPairs.foldl (fun acc p => replaceAllLit p.1 p.2 acc) c1
    match c2 with
    | [] => []
    | c :: rest => c :: rest.filter (fun ch => !isVowel ch)

/-- `FuzzyMatcher.calculateLevenshteinSimilarity`. -/
def calculateLevenshteinSimilarity (s1 s2 : List Char) : ℚ :=
  let maxLen := max s1.length s2.length
  if maxLen = 0 then 1 else 1 - (lev s1 s2 : ℚ) / (maxLen : ℚ)

/-- `FuzzyMatcher.calculateJaccardSimilarity` over character sets (only
set sizes matter, so `Set` is modeled by `List.dedup`). -/
def calculateJaccardSimilarity (s1 s2 : List Char) : ℚ :=
  let inter := (s1.dedup.filter (fun c => s2.contains c)).length
  let uni := (s1 ++ s2).dedup.length
  if uni = 0 then 0 else (inter : ℚ) / (uni : ℚ)

/-- `FuzzyMatcher.calculatePhoneticSimilarity`: the number of tokens of
the FIRST argument that share a nonempty phonetic code with some token of
the second, over the larger token count. -/
def calculatePhoneticSimilarity (str1 str2 : List Char) : ℚ :=
  let words1 := splitSp str1
  let words2 := splitSp str2
  let total := max words1.length words2.length
  let phonMatches := words1.countP (fun w1 =>
    let c1 := generatePhoneticCode w1
    words2.any (fun w2 => generatePhoneticCode w2 == c1) && decide (c1 ≠ []))
  if total = 0 then 0 else (phonMatches : ℚ) / (total : ℚ)

def windowsN (n : Nat) : List Char → List (List Char)
  | [] => if n = 0 then [[]] else []
  | c :: rest =>
    (if n ≤ (c :: rest).length then [(c :: rest).take n] else []) ++
    windowsN n rest

/-- `FuzzyMatcher.generateNGrams`: all length-`n` windows of the string
padded with `n-1` spaces on both sides. -/
def generateNGrams (s : List Char) (n : Nat) : List (List Char) :=
  windowsN n (List.replicate (n - 1) ' ' ++ s ++ List.replicate (n - 1) ' ')

/-- `FuzzyMatcher.calculateNGramSimilarity`. -/
def calculateNGramSimilarity (s1 s2 : List Char) (n : Nat) : ℚ :=
  let g1 := generateNGrams s1 n
  let g2 := generateNGrams s2 n
  if g1 = [] && g2 = [] then 1
  else if g1 = [] || g2 = [] then 0
  else
    let inter := (g1.dedup.filter (fun g => g2.contains g)).length
    let uni := (g1 ++ g2).dedup.length
    (inter : ℚ) / (uni : ℚ)

/-- Inner loop of `calculateWordSimilarity`: best partial-match score and
witness for `word1` among eligible words of `words2` (`best` starts at 0,
strictly increases, and only above 0.7).  The JS guard
`lengthRatio < 0.5` is `2*min < max` for `max > 0`; for `max = 0` the
quotient is `NaN` and the guard does not fire, which `2*0 < 0 = false`
reproduces. -/
def bestPartialGo (word1 : List Char) (isExact : List Char → Bool)
    (used2 : List (List Char)) :
    List (List Char) → ℚ × Option (List Char) → ℚ × Option (List Char)
  | [], acc => acc
  | word2 :: rest, acc =>
    if isExact word2 || used2.contains word2 then
      bestPartialGo word1 isExact used2 rest acc
    else if 2 * min word1.length word2.length < max word1.length word2.length then
      bestPartialGo word1 isExact used2 rest acc
    else
      let simi := calculateLevenshteinSimilarity word1 word2
      if simi > acc.1 && simi > (7 / 10 : ℚ) then
        bestPartialGo word1 isExact used2 rest (simi, some word2)
      else bestPartialGo word1 isExact used2 rest acc

def bestPartial (word1 : List Char) (isExact : List Char → Bool)
    (used2 : List (List Char)) (words2 : List (List Char)) :
    ℚ × Option (List Char) :=
  bestPartialGo word1 isExact used2 words2 (0, none)

/-- Outer loop of `calculateWordSimilarity`, accumulating the partial
match total and the `used2` set. -/
def partialLoop (isExact : List Char → Bool) (words2 : List (List Char)) :
    List (List Char) → ℚ × List (List Char) → ℚ × List (List Char)
  | [], acc => acc
  | w1 :: rest, acc =>
    if isExact w1 then partialLoop isExact words2 rest acc
    else
      let bp := bestPartial w1 isExact acc.2 words2
      match bp.2 with
      | some bw => partialLoop isExact words2 rest (acc.1 + bp.1, bw :: acc.2)
      | none => partialLoop isExact words2 rest acc

/-- `FuzzyMatcher.calculateWordSimilarity`: exact token overlap plus 0.7
times the partial-match total, both over the larger token count. -/
def calculateWordSimilarity (words1 words2 : List (List Char)) : ℚ :=
  if words1 = [] && words2 = [] then 1
  else if words1 = [] || words2 = [] then 0
  else
    let isExact := fun w => words1.contains w && words2.contains w
    let exactCount := (words1.dedup.filter (fun w => words2.contains w)).length
    let pm := (partialLoop isExact words2 words1 (0, [])).1
    let totalWords : ℚ := max words1.length words2.length
    (exactCount : ℚ) / totalWords + pm / totalWords * (7 / 10)

/-- `FuzzyMatcher.calculateSimilarity`: empty-input guard on the RAW
strings; then, on normalized forms, the identical case (checked first),
the empty case, the substring case, and the weighted five-metric
combination clamped by `Math.min(1.0, ·)`. -/
def calculateSimilarity (str1 str2 : List Char) : ℚ :=
  if str1 = [] || str2 = [] then 0
  else
    let norm1 := normalizeText str1
    let norm2 := normalizeText str2
    if norm1 = norm2 then 1
    else if norm1.length = 0 || norm2.length = 0 then 0
    else if containsSub norm1 norm2 || containsSub norm2 norm1 then
      85 / 100 + 15 / 100 *
        ((min norm1.length norm2.length : ℚ) / (max norm1.length norm2.length : ℚ))
    else
      let levS := calculateLevenshteinSimilarity norm1 norm2
      let jacS := calculateJaccardSimilarity norm1 norm2
      let phoS := calculatePhoneticSimilarity norm1 norm2
      let wrdS := calculateWordSimilarity (splitSp norm1) (splitSp norm2)
      let ngrS := calculateNGramSimilarity norm1 norm2 2
      minQ 1 (levS * (25 / 100) + jacS * (20 / 100) + phoS * (15 / 100) +
        wrdS * (25 / 100) + ngrS * (15 / 100))

/-- `Math.max` on rationals, by the decidable order. -/
def maxQ (a b : ℚ) : ℚ := if a ≤ b then b else a

/-- The result record of every matcher (`{score, method, ...}`).  The
optional `pat` field records, for tier-1 episode results, the index of
the first matching member of the exact pattern family (the source stores
that pattern's text).  The JS `details`/`indicators` diagnostic fields
influence no control flow and are not modeled. -/
structure MatchResult where
  score : ℚ
  method : String
  pat : Option Nat := none
deriving DecidableEq, Repr

/-- Existential regex test (`RegExp.prototype.test`): try the matcher at
every position of the string, supplying the preceding character. -/
def testScan (m : Option Char → List Char → Bool) :
    Option Char → List Char → Bool
  | prev, [] => m prev []
  | prev, c :: rest => m prev (c :: rest) || testScan m (some c) rest

/-- `\b lit \b` at a position (empty literal degenerates to a single
boundary test, as `\b\b` does). -/
def wbLitWbAt (l : List Char) (prev : Option Char) (t : List Char) : Bool :=
  match l with
  | [] => wordBoundary prev t.head?
  | _ =>
    startsWithL l t && wordBoundary prev l.head? &&
    wordBoundary l.getLast? ((t.drop l.length).head?)

/-- `cls* lit`: a backtracking star over a character class followed by a
literal (the star may stop early when the literal itself begins with a
class character). -/
def starThenLit (cls : Char → Bool) (lit : List Char) : List Char → Bool
  | [] => startsWithL lit []
  | c :: rest => startsWithL lit (c :: rest) || (cls c && starThenLit cls lit rest)

/-- `String.prototype.replace(pat, '')` with a plain-string pattern:
removes only the first occurrence. -/
def removeFirstL (pat : List Char) : List Char → List Char
  | [] => []
  | c :: rest =>
    if startsWithL pat (c :: rest) then (c :: rest).drop pat.length
    else c :: removeFirstL pat rest

/-- Maximal digit runs carrying `\b` on both sides, the matches of
`/\b\d{m,n}\b/g` before the length filter: a digit run flanked by
non-word characters or string ends (positions inside a run carry no word
boundary, so no other substring can match). -/
def digitRunsAux : Nat → Option Char → List Char → List (List Char)
  | 0, _, _ => []
  | _ + 1, _, [] => []
  | fuel + 1, prev, c :: rest =>
    if c.isDigit && leftWB prev then
      let run := (c :: rest).takeWhile Char.isDigit
      let after := (c :: rest).drop run.length
      if rightWB after then run :: digitRunsAux fuel run.getLast? after
      else digitRunsAux fuel (some c) rest
    else digitRunsAux fuel (some c) rest

def digitRuns (s : List Char) : List (List Char) :=
  digitRunsAux s.length none s

/-- `parseInt` on an all-digit run. -/
def parseDigits (s : List Char) : Nat :=
  s.foldl (fun acc c => acc * 10 + (c.toNat - '0'.toNat)) 0

def natDigitsAux : Nat → Nat → List Char
  | 0, _ => []
  | f + 1, n =>
    if n < 10 then [Char.ofNat ('0'.toNat + n)]
    else natDigitsAux f (n / 10) ++ [Char.ofNat ('0'.toNat + n % 10)]

/-- `Number.prototype.toString` for the naturals handled here. -/
def natToChars (n : Nat) : List Char := natDigitsAux (n + 1) n

/-- `padStart(2, '0')`. -/
def pad2 (s : List Char) : List Char := if s.length < 2 then '0' :: s else s

/-- The class `[\s\-_]` used by `imdb[\s\-_]*id` and the season-pack and
special episode patterns. -/
def sepCls2 (c : Char) : Bool := isJsSpace c || c = '-' || c = '_'

/-- The class `[\s\-_\.]` used by the separator-tolerant patterns. -/
def sepCls (c : Char) : Bool := sepCls2 c || c = '.'

/-- Characters certainly safe to interpolate verbatim into the
`matchesImdbId` pattern texts (word characters).  Outside this set a
constructed pattern can be an invalid regex — e.g. an id containing `(`
yields `\btt(\b`, an unterminated group — and then the `directPatterns`
array literal throws `SyntaxError` before any test runs; the embedding
answers `none` for every such identifier. -/
def idRegexSafe (id : List Char) : Bool := id.all isWordChar

/-- The fuzzy digit-run loop of `matchesImdbId` (lines 487-510): per run,
in order — same length with edit similarity ≥ 0.8; longer run containing
the core; core containing the shorter run. -/
def imdbFuzzyLoop (n : List Char) : List (List Char) → Option MatchResult
  | [] => none
  | m :: rest =>
    if m.length = n.length ∧ (8/10 : ℚ) ≤ calculateLevenshteinSimilarity m n then
      some ⟨calculateLevenshteinSimilarity m n * (9/10), "fuzzy_imdb_exact_length", none⟩
    else if n.length < m.length ∧ containsSub m n then
      some ⟨85/100, "imdb_substring", none⟩
    else if m.length < n.length ∧ containsSub n m then
      some ⟨75/100, "imdb_partial", none⟩
    else imdbFuzzyLoop n rest

/-- `FuzzyMatcher.matchesImdbId`.  Tier 1: the six `directPatterns` in
order (patterns 2, 4, 5 lack the `i` flag and use the id text verbatim;
the others compare lower-cased).  Tier 2: 6-8 digit runs against the
numeric core.  Tier 3: the three `separatorPatterns`.  Otherwise score 0,
method `no_imdb_match`.  All tests run against `filename.toLowerCase()`
except the digit-run extraction, which the source does on the raw
filename (digits are unaffected by case). -/
def matchesImdbId (filename imdbId : List Char) : Option MatchResult :=
  if !idRegexSafe imdbId then none
  else
    let numericId := removeFirstL "tt".data imdbId
    let filenameLC := toLowerL filename
    if testScan (wbLitWbAt ("tt".data ++ toLowerL numericId)) none filenameLC then
      some ⟨1, "direct_imdb", none⟩
    else if testScan (wbLitWbAt numericId) none filenameLC then
      some ⟨1, "direct_imdb", none⟩
    else if testScan
        (fun _ t => startsWithL "imdb".data t &&
          starThenLit sepCls2 (toLowerL numericId) (t.drop 4)) none filenameLC then
      some ⟨1, "direct_imdb", none⟩
    else if containsSub filenameLC ('[' :: numericId ++ [']']) then
      some ⟨1, "direct_imdb", none⟩
    else if containsSub filenameLC ('(' :: numericId ++ [')']) then
      some ⟨1, "direct_imdb", none⟩
    else if testScan (wbLitWbAt (toLowerL imdbId)) none filenameLC then
      some ⟨1, "direct_imdb", none⟩
    else
      match imdbFuzzyLoop numericId
          ((digitRuns filename).filter (fun r => 6 ≤ r.length && r.length ≤ 8)) with
      | some r => some r
      | none =>
        if testScan
            (fun _ t => startsWithL "imdb".data t &&
              starThenLit sepCls (toLowerL numericId) (t.drop 4)) none filenameLC then
          some ⟨9/10, "imdb_with_separator", none⟩
        else if testScan
            (fun _ t => startsWithL "tt".data t &&
              starThenLit sepCls (toLowerL numericId) (t.drop 2)) none filenameLC then
          some ⟨9/10, "imdb_with_separator", none⟩
        else if testScan
            (fun prev t =>
              (match numericId with
               | [] => wordBoundary prev t.head?
               | c :: _ => wordBoundary prev (some c) && startsWithL numericId t) &&
              starThenLit sepCls "imdb".data (t.drop numericId.length))
            none (toLowerL filename) then
          some ⟨9/10, "imdb_with_separator", none⟩
        else some ⟨0, "no_imdb_match", none⟩

/-- Sequential consumption of pattern pieces. -/
def eatSeq : List (List Char → Option (List Char)) → List Char → Option (List Char)
  | [], t => some t
  | f :: fs, t => (f t).bind (eatSeq fs)

def eatLit (l : List Char) (t : List Char) : Option (List Char) :=
  if startsWithL l t then some (t.drop l.length) else none

/-- Greedy star over a class whose continuation never starts with a class
character (true for every use below), so no backtracking is needed. -/
def eatStar (cls : Char → Bool) (t : List Char) : Option (List Char) :=
  some (t.dropWhile cls)

/-- Greedy optional class character, continuation disjoint as above. -/
def eatOpt (cls : Char → Bool) (t : List Char) : Option (List Char) :=
  match t with
  | c :: rest => if cls c then some rest else some (c :: rest)
  | [] => some []

def endsOk (r : Option (List Char)) : Bool := r.isSome

def endsWB (r : Option (List Char)) : Bool := r.elim false rightWB

/-- The `exactPatterns` family of `matchesEpisode` (lines 624-654), in
source order, as position matchers over the lower-cased filename. -/
def epExactPatterns (season episode : Nat) :
    List (Option Char → List Char → Bool) :=
  let s := natToChars season
  let e := natToChars episode
  let sp := pad2 s
  let ep := pad2 e
  [ -- `s${sp}e${ep}\b`
    fun _ t => endsWB (eatLit ('s' :: sp ++ 'e' :: ep) t),
    -- `s${s}e${e}\b`
    fun _ t => endsWB (eatLit ('s' :: s ++ 'e' :: e) t),
    -- `${s}x${ep}\b`
    fun _ t => endsWB (eatLit (s ++ 'x' :: ep) t),
    -- `${s}x${e}\b`
    fun _ t => endsWB (eatLit (s ++ 'x' :: e) t),
    -- `s${sp}[\s\-_\.]*e${ep}`
    fun _ t => endsOk (eatSeq [eatLit ('s' :: sp), eatStar sepCls, eatLit ('e' :: ep)] t),
    -- `s${s}[\s\-_\.]*e${e}`
    fun _ t => endsOk (eatSeq [eatLit ('s' :: s), eatStar sepCls, eatLit ('e' :: e)] t),
    -- `season[\s\-_\.]*${s}[\s\-_\.]*episode[\s\-_\.]*${e}`
    fun _ t => endsOk (eatSeq [eatLit "season".data, eatStar sepCls, eatLit s,
      eatStar sepCls, eatLit "episode".data, eatStar sepCls, eatLit e] t),
    -- `season[\s\-_\.]*${sp}[\s\-_\.]*episode[\s\-_\.]*${ep}`
    fun _ t => endsOk (eatSeq [eatLit "season".data, eatStar sepCls, eatLit sp,
      eatStar sepCls, eatLit "episode".data, eatStar sepCls, eatLit ep] t),
    -- `s${s}[\s\-_\.]?ep?${e}\b`
    fun _ t => endsWB (eatSeq [eatLit ('s' :: s), eatOpt sepCls, eatLit ['e'],
      eatOpt (· = 'p'), eatLit e] t),
    -- `s${sp}[\s\-_\.]?ep?${ep}\b`
    fun _ t => endsWB (eatSeq [eatLit ('s' :: sp), eatOpt sepCls, eatLit ['e'],
      eatOpt (· = 'p'), eatLit ep] t),
    -- `\bs${s}${ep}\b`
    fun prev t => leftWB prev && endsWB (eatLit ('s' :: s ++ ep) t),
    -- `\bs${sp}${ep}\b`
    fun prev t => leftWB prev && endsWB (eatLit ('s' :: sp ++ ep) t),
    -- `\.s${sp}\.e${ep}\.`
    fun _ t => startsWithL ('.' :: 's' :: sp ++ '.' :: 'e' :: ep ++ ['.']) t,
    -- `\.${s}x${ep}\.`
    fun _ t => startsWithL ('.' :: s ++ 'x' :: ep ++ ['.']) t,
    -- `\[s${sp}e${ep}\]`
    fun _ t => startsWithL ('[' :: 's' :: sp ++ 'e' :: ep ++ [']']) t,
    -- `\(s${sp}e${ep}\)`
    fun _ t => startsWithL ('(' :: 's' :: sp ++ 'e' :: ep ++ [')']) t,
    -- `season[\s\-_]*${s}[\s\-_]*ep[\s\-_]*${e}`
    fun _ t => endsOk (eatSeq [eatLit "season".data, eatStar sepCls2, eatLit s,
      eatStar sepCls2, eatLit "ep".data, eatStar sepCls2, eatLit e] t),
    -- `s${s}[\s\-_]*${ep}`
    fun _ t => endsOk (eatSeq [eatLit ('s' :: s), eatStar sepCls2, eatLit ep] t) ]

/-- Index of the first exact episode pattern matching the filename
(first hit wins, as in the source's ordered `for` loop). -/
def firstExactEpisodeIdx (filenameLC : List Char) (season episode : Nat) :
    Option Nat :=
  (epExactPatterns season episode).findIdx? (fun p => testScan p none filenameLC)

/-- The fuzzy adjacent-pair loop of `matchesEpisode` (lines 663-685):
first qualifying pair wins, and a season-only hit returns immediately. -/
def epPairLoop (season episode : Nat) : List Nat → Option MatchResult
  | s :: e :: rest =>
    if s = season ∧ e = episode then some ⟨95/100, "fuzzy_episode_exact", none⟩
    else if s = season ∧ (e = episode + 1 ∨ e + 1 = episode) then
      some ⟨8/10, "fuzzy_episode_close", none⟩
    else if s = season then some ⟨6/10, "fuzzy_season_only", none⟩
    else epPairLoop season episode (e :: rest)
  | _ => none

/-- `FuzzyMatcher.matchesEpisode`: the exact pattern family, the fuzzy
digit-pair loop (needing at least two 1-3 digit runs), the season-1
episode-only scan (whose early return always yields the same result as
existence), the season-pack pattern, else no match. -/
def matchesEpisode (filename : List Char) (season episode : Nat) : MatchResult :=
  let filenameLC := toLowerL filename
  match firstExactEpisodeIdx filenameLC season episode with
  | some i => ⟨1, "exact_episode", some i⟩
  | none =>
    let runs := (digitRuns filenameLC).filter (fun r => 1 ≤ r.length && r.length ≤ 3)
    let nums := runs.map parseDigits
    match (if 2 ≤ nums.length then epPairLoop season episode nums else none) with
    | some r => r
    | none =>
      if season = 1 ∧ nums ≠ [] ∧ nums.any (fun num =>
          num = episode && num ≤ 50 &&
          !containsSub filenameLC (natToChars num ++ ['p']) &&
          !containsSub filenameLC (natToChars num ++ ['k'])) then
        ⟨7/10, "episode_only_s1", none⟩
      else if testScan
          (fun _ t => endsOk (eatSeq [eatLit "season".data, eatStar sepCls2,
            eatLit (natToChars season)] t)) none filenameLC then
        ⟨5/10, "season_pack", none⟩
      else ⟨0, "no_match", none⟩

/-- The year-run shapes `19[2-9]\d` and `20[0-5]\d`. -/
def yearShape (r : List Char) : Bool :=
  match r with
  | [a, b, c, d] =>
    d.isDigit &&
    ((a = '1' && b = '9' && '2' ≤ c && c ≤ '9') ||
     (a = '2' && b = '0' && '0' ≤ c && c ≤ '5'))
  | _ => false

/-- The matches of `/\b(19[2-9]\d|20[0-5]\d)\b/g`, in order. -/
def yearRuns (filename : List Char) : List (List Char) :=
  (digitRuns filename).filter yearShape

/-- `/\d{3,4}p/i` at a position (greedy four digits, backtracking to
three). -/
def resMarkAt (t : List Char) : Bool :=
  match t with
  | a :: b :: c :: d :: rest =>
    a.isDigit && b.isDigit && c.isDigit &&
    ((d.isDigit && rest.head? = some 'p') || lowerChar d = 'p')
  | _ => false

def containsResMark (s : List Char) : Bool := testScan (fun _ t => resMarkAt t) none s

/-- The per-candidate validation of `extractYear` (lines 445-458): range
[1920, 2030], and no `\d{3,4}p` mark inside `before + year + after`,
where the window is anchored at `filename.indexOf(year)` — the FIRST
occurrence of those digits, not necessarily the matched run. -/
def validYear (filename year : List Char) : Bool :=
  let yearNum := parseDigits year
  decide (1920 ≤ yearNum) && decide (yearNum ≤ 2030) &&
  (let idx := (indexOfSub filename year).getD 0
   let before := (filename.take idx).drop (idx - 10)
   let after := (filename.drop (idx + 4)).take 16
   !containsResMark (before ++ year ++ after))

def yearLoop (filename : List Char) : List (List Char) → Option (List Char)
  | [] => none
  | y :: rest => if validYear filename y then some y else yearLoop filename rest

/-- `FuzzyMatcher.extractYear`: `null` when the year regex matches
nothing; otherwise the first validated run, with `yearMatches[0]` as the
fallback after an unsuccessful loop. -/
def extractYear (filename : List Char) : Option (List Char) :=
  let ys := yearRuns filename
  if ys = [] then none
  else
    match yearLoop filename ys with
    | some y => some y
    | none => ys.head?

def afterLastSlash (p : List Char) : List Char :=
  (p.reverse.takeWhile (· ≠ '/')).reverse

def endsWithL (s suffix : List Char) : Bool :=
  startsWithL suffix.reverse s.reverse

/-- Node's `path.extname`. -/
def extnameL (p : List Char) : List Char :=
  let base := afterLastSlash p
  let revTail := base.reverse.takeWhile (· ≠ '.')
  if revTail.length = base.length then []
  else if revTail.length + 1 = base.length then []
  else '.' :: revTail.reverse

/-- Node's `path.basename(p, ext)`: the suffix `ext` is stripped only
when it is a proper suffix of the file name. -/
def basenameL (p ext : List Char) : List Char :=
  let base := afterLastSlash p
  if ext ≠ [] && base ≠ ext && endsWithL base ext then
    base.take (base.length - ext.length)
  else base

/-- `\b(1080p|720p|4k|bluray|web-dl|webrip)\b/i` on the basename. -/
def qualityMark (b : List Char) : Bool :=
  testScan
    (fun prev t =>
      (wordAltsAt (["1080p", "720p", "4k", "bluray", "web-dl", "webrip"].map
        (fun w => litAlt w.data)) prev t).isSome)
    none (toLowerL b)

/-- `\b(sample|trailer|preview|cam|ts|screener)\b/i` on the basename. -/
def negativeMark (b : List Char) : Bool :=
  testScan
    (fun prev t =>
      (wordAltsAt (["sample", "trailer", "preview", "cam", "ts", "screener"].map
        (fun w => litAlt w.data)) prev t).isSome)
    none (toLowerL b)

/-- `FuzzyMatcher.analyzeFilename`: year presence (+0.2), title keyword
overlap (+ fraction × 0.3), quality tags (+0.1), negative markers (−0.3),
clamped to [0, 1].  `targetTitle`/`targetYear` truthiness is `some` of a
nonempty string. -/
def analyzeScoreRaw (filename : List Char)
    (targetTitle targetYear : Option (List Char)) : ℚ :=
  let basename := basenameL filename (extnameL filename)
  let score1 : ℚ :=
    match targetYear with
    | some ty => if ty ≠ [] && containsSub basename ty then 2/10 else 0
    | none => 0
  let score2 : ℚ :=
    match targetTitle with
    | some tt =>
      if tt ≠ [] then
        let titleWords := splitSp (normalizeText tt)
        let filenameWords := splitSp (normalizeText basename)
        let wordMatches := titleWords.filter (fun w =>
          filenameWords.any (fun fw => containsSub fw w || containsSub w fw))
        if 0 < wordMatches.length then
          score1 + ((wordMatches.length : ℚ) / (titleWords.length : ℚ)) * (3/10)
        else score1
      else score1
    | none => score1
  let score3 := if qualityMark basename then score2 + 1/10 else score2
  if negativeMark basename then score3 - 3/10 else score3

def analyzeFilename (filename : List Char)
    (targetTitle targetYear : Option (List Char)) : MatchResult :=
  ⟨maxQ 0 (minQ 1 (analyzeScoreRaw filename targetTitle targetYear)),
    "filename_analysis", none⟩

/-- The movie strategy list of `findBestMatches` when no target metadata
is available (`targetTitle = targetYear = null`, so the title strategy of
lines 732-737 is skipped): the identifier strategy (weight 0.7) and the
filename-analysis strategy (weight 0.4); `none` when the identifier
matcher throws. -/
def movieStrategiesNoMeta (name id : List Char) :
    Option (List (MatchResult × ℚ)) :=
  (matchesImdbId name id).map
    (fun imdb => [(imdb, 7/10), (analyzeFilename name none none, 4/10)])

/-- The strategy combination of the movie branch (lines 742-761): the
best single strategy (`reduce`, earlier strategy kept on ties), replaced
by the weighted average tagged `multi_strategy` when more than one
strategy exceeds 0.5 and the average beats the best. -/
def combineMovie (strategies : List (MatchResult × ℚ)) : MatchResult :=
  let best :=
    (match strategies with
     | [] => ((⟨0, "none", none⟩ : MatchResult), (0 : ℚ))
     | s :: rest =>
       rest.foldl
         (fun (b c : MatchResult × ℚ) => if b.1.score < c.1.score then c else b)
         s).1
  if 1 < (strategies.filter (fun s => (5/10 : ℚ) < s.1.score)).length then
    let combined := (strategies.foldl (fun acc s => acc + s.1.score * s.2) 0) /
      (strategies.foldl (fun acc s => acc + s.2) 0)
    if best.score < combined then ⟨combined, "multi_strategy", none⟩ else best
  else best

def movieMatchNoMeta (name id : List Char) : Option MatchResult :=
  (movieStrategiesNoMeta name id).map combineMovie

/-- The series strategy combination of `findBestMatches` (lines 779-799)
for a request with season and episode: both positive → 0.7·episode +
0.3·identifier (`series_combined`); else episode alone above 0.6; else
identifier above 0.7 with episode above 0.2 → 0.6·identifier +
0.4·episode (`series_imdb_weighted`); else whichever scored higher (the
identifier result on ties). -/
def seriesCombine (episodeMatch imdbMatch : MatchResult) : MatchResult :=
  if 0 < episodeMatch.score ∧ 0 < imdbMatch.score then
    ⟨episodeMatch.score * (7/10) + imdbMatch.score * (3/10), "series_combined", none⟩
  else if 6/10 < episodeMatch.score then episodeMatch
  else if 7/10 < imdbMatch.score ∧ 2/10 < episodeMatch.score then
    ⟨imdbMatch.score * (6/10) + episodeMatch.score * (4/10), "series_imdb_weighted", none⟩
  else if imdbMatch.score < episodeMatch.score then episodeMatch
  else imdbMatch

/-- The method-priority table of the ranking comparator (lines 823-831);
unlisted methods have priority 0. -/
def methodPriority (m : String) : Nat :=
  if m = "direct_imdb" then 10
  else if m = "exact_episode" then 9
  else if m = "series_combined" then 8
  else if m = "enhanced_title_match" then 7
  else if m = "multi_strategy" then 6
  else if m = "fuzzy_imdb_exact_length" then 5
  else if m = "fuzzy_episode_exact" then 4
  else 0

/-- The sort comparator of `findBestMatches` (lines 820-837): scores
within 0.01 of each other are ordered by method priority, otherwise by
score descending.  Negative means the first argument sorts first. -/
def cmpMatches (a b : MatchResult) : ℚ :=
  if absDiffQ a.score b.score < 1/100 then
    (methodPriority b.method : ℚ) - (methodPriority a.method : ℚ)
  else b.score - a.score

def insertSorted (le : α → α → Bool) (x : α) : List α → List α
  | [] => [x]
  | y :: ys => if le x y then x :: y :: ys else y :: insertSorted le x ys

/-- Stable insertion sort, modeling `Array.prototype.sort` (V8's TimSort
is stable; for a consistent comparator the two agree, and no claim below
depends on the order V8 produces for an inconsistent one). -/
def stableSortBy (le : α → α → Bool) (l : List α) : List α :=
  l.foldr (insertSorted le) []

/-- `matches.sort((a, b) => ...)` over (filename, match) pairs. -/
def sortMatches (l : List (List Char × MatchResult)) :
    List (List Char × MatchResult) :=
  stableSortBy (fun a b => decide (cmpMatches a.2 b.2 ≤ 0)) l

/-- Evaluate each file of a metadata-less movie request, propagating a
thrown matcher (`none`). -/
def perFileMatches (id : List Char) : List (List Char) →
    Option (List (List Char × MatchResult))
  | [] => some []
  | name :: rest =>
    match movieMatchNoMeta name id with
    | some m => (perFileMatches id rest).map (fun rs => (name, m) :: rs)
    | none => none

/-- `findBestMatches` for `type = 'movie'` without target metadata:
per-file combination, threshold filter (`score >= minScore`), comparator
sort.  The handler calls this with `minScore = 0.3`
(`subtitles-handler.js` line 89); the engine's default parameter is 0.4.
`none` when some file makes the identifier matcher throw. -/
def findBestMatchesMovieNoMeta (files : List (List Char)) (id : List Char)
    (minScore : ℚ) : Option (List (List Char × MatchResult)) :=
  (perFileMatches id files).map
    (fun rs => sortMatches (rs.filter (fun p => minScore ≤ p.2.score)))

/-- The ranking property asserted by the specification, as a predicate on
an output list: for every earlier/later pair, near-equal scores (within
0.01) demand non-increasing method priority, other pairs demand
non-increasing score. -/
def specRankedPair (a b : MatchResult) : Bool :=
  if absDiffQ a.score b.score < 1/100 then
    decide (methodPriority b.method ≤ methodPriority a.method)
  else decide (b.score ≤ a.score)

def specRankedBool : List (List Char × MatchResult) → Bool
  | [] => true
  | x :: xs => xs.all (fun y => specRankedPair x.2 y.2) && specRankedBool xs

end Engine

namespace Engine

unseal Rat.add Rat.mul Rat.sub Rat.inv

theorem lev_nil (ys : List Char) : lev [] ys = ys.length := rfl

theorem lev_nil_right (xs : List Char) : lev xs [] = xs.length := by
  cases xs <;> rfl

theorem lev_cons_cons (x y : Char) (xs ys : List Char) :
    lev (x :: xs) (y :: ys) =
      if x = y then lev xs ys
      else 1 + min (lev xs ys) (min (lev (x :: xs) ys) (lev xs (y :: ys))) := rfl

theorem lev_symm : ∀ xs ys : List Char, lev xs ys = lev ys xs := by
  intro xs
  induction xs with
  | nil => intro ys; rw [lev_nil, lev_nil_right]
  | cons x xs ih =>
    intro ys
    induction ys with
    | nil => rw [lev_nil, lev_nil_right]
    | cons y ys ih2 =>
      rw [lev_cons_cons, lev_cons_cons]
      rcases eq_or_ne x y with h | h
      · subst h
        rw [if_pos rfl, if_pos rfl]
        exact ih ys
      · have h' : ¬ y = x := fun e => h e.symm
        rw [if_neg h, if_neg h', ih ys, ih (y :: ys), ih2]
        omega

theorem lev_le_max : ∀ xs ys : List Char, lev xs ys ≤ max xs.length ys.length := by
  intro xs
  induction xs with
  | nil => intro ys; rw [lev_nil]; exact Nat.le_max_right _ _
  | cons x xs ih =>
    intro ys
    induction ys with
    | nil => rw [lev_nil_right]; exact Nat.le_max_left _ _
    | cons y ys ih2 =>
      rw [lev_cons_cons]
      have h1 := ih ys
      split
      · simp only [List.length_cons]; omega
      · simp only [List.length_cons] at *; omega

theorem levSim_symm (a b : List Char) :
    calculateLevenshteinSimilarity a b = calculateLevenshteinSimilarity b a := by
  unfold calculateLevenshteinSimilarity
  rw [lev_symm, Nat.max_comm]

theorem levSim_def (a b : List Char) :
    calculateLevenshteinSimilarity a b =
      if max a.length b.length = 0 then 1
      else 1 - (lev a b : ℚ) / ((max a.length b.length : ℕ) : ℚ) := rfl

theorem levSim_nonneg (a b : List Char) :
    0 ≤ calculateLevenshteinSimilarity a b := by
  rw [levSim_def]
  split
  · norm_num
  · rename_i h
    have hmax : 0 < max a.length b.length := Nat.pos_of_ne_zero h
    have hle := lev_le_max a b
    have hq : (lev a b : ℚ) / ((max a.length b.length : ℕ) : ℚ) ≤ 1 := by
      rw [div_le_one (by exact_mod_cast hmax)]
      exact_mod_cast hle
    linarith

theorem levSim_le_one (a b : List Char) :
    calculateLevenshteinSimilarity a b ≤ 1 := by
  rw [levSim_def]
  split
  · norm_num
  · rename_i h
    have hq : 0 ≤ (lev a b : ℚ) / ((max a.length b.length : ℕ) : ℚ) :=
      div_nonneg (by positivity) (by positivity)
    linarith

theorem dedupInterLen {α : Type} [DecidableEq α] [BEq α] [LawfulBEq α]
    (a b : List α) :
    ((a.dedup).filter (fun c => b.contains c)).length =
      (a.toFinset ∩ b.toFinset).card := by
  have hnd : ((a.dedup).filter (fun c => b.contains c)).Nodup :=
    (List.nodup_dedup a).filter _
  rw [← List.toFinset_card_of_nodup hnd]
  congr 1
  ext c
  simp [List.mem_filter, List.mem_dedup, List.elem_iff]

theorem dedupUnionLen {α : Type} [DecidableEq α] (a b : List α) :
    ((a ++ b).dedup).length = (a.toFinset ∪ b.toFinset).card := by
  rw [← List.toFinset_card_of_nodup (List.nodup_dedup _)]
  congr 1
  ext c
  simp [List.mem_dedup]

theorem jaccard_symm (a b : List Char) :
    calculateJaccardSimilarity a b = calculateJaccardSimilarity b a := by
  unfold calculateJaccardSimilarity
  rw [dedupInterLen a b, dedupInterLen b a, dedupUnionLen a b, dedupUnionLen b a,
    Finset.inter_comm, Finset.union_comm]

theorem jaccQ (x y : List (List Char)) :
    ((x.dedup.filter (fun g => y.contains g)).length : ℚ) /
      (((x ++ y).dedup).length : ℚ) =
    ((y.dedup.filter (fun g => x.contains g)).length : ℚ) /
      (((y ++ x).dedup).length : ℚ) := by
  rw [dedupInterLen, dedupInterLen, dedupUnionLen, dedupUnionLen,
    Finset.inter_comm, Finset.union_comm]

theorem ngram_symm (a b : List Char) (n : Nat) :
    calculateNGramSimilarity a b n = calculateNGramSimilarity b a n := by
  unfold calculateNGramSimilarity
  by_cases h1 : generateNGrams a n = [] <;> by_cases h2 : generateNGrams b n = []
  · simp [h1, h2]
  · simp [h1, h2]
  · simp [h1, h2]
  · simp only [h1, h2, Bool.and_eq_true, decide_eq_true_eq, false_and, and_false,
      if_false, Bool.or_eq_true, or_self]
    exact jaccQ _ _

theorem splitSp_ne_nil (s : List Char) : splitSp s ≠ [] := by
  cases s with
  | nil => simp [splitSp]
  | cons c rest =>
    unfold splitSp
    cases splitSp rest with
    | nil => simp
    | cons t ts => by_cases hc : c = ' ' <;> simp [hc]

theorem splitSp_cons_eq (c : Char) (rest u : List Char)
    (us : List (List Char)) (h : splitSp rest = u :: us) :
    splitSp (c :: rest) = if c = ' ' then [] :: u :: us else (c :: u) :: us := by
  unfold splitSp
  rw [h]

theorem splitSp_no_space (s : List Char) : ∀ t ∈ splitSp s, ' ' ∉ t := by
  induction s with
  | nil => intro t ht; simp [splitSp] at ht; simp [ht]
  | cons c rest ih =>
    intro t ht
    rcases h : splitSp rest with _ | ⟨u, us⟩
    · exact absurd h (splitSp_ne_nil rest)
    · rw [splitSp_cons_eq c rest u us h] at ht
      by_cases hc : c = ' '
      · rw [if_pos hc] at ht
        rcases List.mem_cons.mp ht with ht2 | ht2
        · simp [ht2]
        · exact ih t (h ▸ ht2)
      · rw [if_neg hc] at ht
        rcases List.mem_cons.mp ht with ht2 | ht2
        · subst ht2
          intro hmem
          rcases List.mem_cons.mp hmem with h' | h'
          · exact hc h'.symm
          · exact ih u (h ▸ List.mem_cons_self u us) h'
        · exact ih t (h ▸ List.mem_cons_of_mem u ht2)

theorem splitSp_of_no_space (x : List Char) (hx : ' ' ∉ x) : splitSp x = [x] := by
  induction x with
  | nil => simp [splitSp]
  | cons c rest ih =>
    have hc : c ≠ ' ' := fun h => hx (h ▸ List.mem_cons_self c rest)
    have hrest : ' ' ∉ rest := fun h => hx (List.mem_cons_of_mem c h)
    rw [splitSp_cons_eq c rest rest [] (ih hrest), if_neg hc]

theorem splitSp_append_space (x r : List Char) (hx : ' ' ∉ x) :
    splitSp (x ++ ' ' :: r) = x :: splitSp r := by
  induction x with
  | nil =>
    simp only [List.nil_append]
    rcases h : splitSp r with _ | ⟨t, ts⟩
    · exact absurd h (splitSp_ne_nil r)
    · simp [splitSp_cons_eq ' ' r t ts h, h]
  | cons c rest ih =>
    have hc : c ≠ ' ' := fun h => hx (h ▸ List.mem_cons_self c rest)
    have hrest : ' ' ∉ rest := fun h => hx (List.mem_cons_of_mem c h)
    simp only [List.cons_append]
    rw [splitSp_cons_eq c (rest ++ ' ' :: r) rest (splitSp r) (ih hrest),
      if_neg hc]

theorem splitSp_joinSp (l : List (List Char)) (hne : l ≠ [])
    (hsp : ∀ t ∈ l, ' ' ∉ t) : splitSp (joinSp l) = l := by
  induction l with
  | nil => exact absurd rfl hne
  | cons x rest ih =>
    cases rest with
    | nil =>
      show splitSp (joinSp [x]) = [x]
      unfold joinSp
      exact splitSp_of_no_space x (hsp x (List.mem_cons_self x []))
    | cons y ys =>
      show splitSp (x ++ ' ' :: joinSp (y :: ys)) = x :: y :: ys
      rw [splitSp_append_space x _ (hsp x (List.mem_cons_self x _)),
        ih (by simp) (fun t ht => hsp t (List.mem_cons_of_mem x ht))]

/-- C2 (amended): the edit-distance, character-Jaccard and bigram
sub-metrics of the similarity scorer are symmetric in their two
arguments; the phonetic and token sub-metrics, however, iterate over the
FIRST argument's token list (with denominator
`max(tokenCount(a), tokenCount(b))`), not the shorter one, so they — and
the overall `similarity` — are not symmetric (see the counterexample). -/
theorem c2_submetric_symmetry_amended :
    (∀ a b : List Char,
      calculateLevenshteinSimilarity a b = calculateLevenshteinSimilarity b a) ∧
    (∀ a b : List Char,
      calculateJaccardSimilarity a b = calculateJaccardSimilarity b a) ∧
    (∀ (a b : List Char) (n : Nat),
      calculateNGramSimilarity a b n = calculateNGramSimilarity b a n) :=
  ⟨levSim_symm, jaccard_symm, ngram_symm⟩

/-- C2 counterexample: `similarity` is not symmetric.  With inputs
`"b b c"` and `"b d"` (both fixed by normalization), the phonetic
sub-metric counts matched tokens of its first argument — 2 of
`[b, b, c]` against `[b, d]` but only 1 of `[b, d]` against
`[b, b, c]` — giving 13/30 in one order and 23/60 in the other. -/
theorem c2_similarity_not_symmetric_counterexample :
    calculateSimilarity "b b c".data "b d".data ≠
      calculateSimilarity "b d".data "b b c".data := by decide

/-- C3 counterexample: `"the"` and `"a"` are nonempty raw inputs that
both normalize to the empty string, yet `similarity` returns 1.0 — the
identical-forms check runs BEFORE the empty-normalization check, so the
claimed value 0 and the claimed check order are both wrong. -/
theorem c3_both_empty_scores_one_counterexample :
    normalizeText "the".data = [] ∧ normalizeText "a".data = [] ∧
    calculateSimilarity "the".data "a".data = 1 := by decide

/-- C3 (amended): an empty RAW input scores 0; otherwise the
identical-forms check runs first, so two inputs with the same
normalization — including both normalizing to empty — score 1.0, and the
empty-normalization check returns 0 only when exactly one normalization
is empty (the two normalizations then differ). -/
theorem c3_empty_normalization_amended (a b : List Char) :
    (a = [] ∨ b = [] → calculateSimilarity a b = 0) ∧
    (a ≠ [] → b ≠ [] → normalizeText a = normalizeText b →
      calculateSimilarity a b = 1) ∧
    (a ≠ [] → b ≠ [] → normalizeText a ≠ normalizeText b →
      normalizeText a = [] ∨ normalizeText b = [] →
      calculateSimilarity a b = 0) := by
  refine ⟨fun h => ?_, fun ha hb heq => ?_, fun ha hb hne hemp => ?_⟩
  · unfold calculateSimilarity
    rcases h with h | h <;> simp [h]
  · unfold calculateSimilarity
    simp [ha, hb, heq]
  · unfold calculateSimilarity
    rcases hemp with h | h
    · have hb2 : ¬ normalizeText b = [] := fun e => hne (h.trans e.symm)
      simp [ha, hb, h, hb2]
    · have ha2 : ¬ normalizeText a = [] := fun e => hne (e.trans h.symm)
      simp [ha, hb, h, ha2]

/-- Witness for C3 (amended): at `a = "the"`, `b = "a"` the second
conjunct applies — both normalize to the empty string and the score is
1.0. -/
theorem c3_empty_normalization_witness :
    calculateSimilarity "the".data "a".data = 1 :=
  (c3_empty_normalization_amended "the".data "a".data).2.1
    (by decide) (by decide) (by decide)

/-- C4: for a series request with season and episode known, the strategy
combination is: both matchers positive → 0.7×episode + 0.3×identifier
with method `series_combined`; otherwise an episode score above 0.6 is
used directly; otherwise identifier above 0.7 with episode above 0.2 →
0.6×identifier + 0.4×episode; otherwise the higher-scoring of the two
results (the identifier result on ties). -/
theorem c4_series_combination (em im : MatchResult) :
    (0 < em.score → 0 < im.score →
      seriesCombine em im =
        ⟨em.score * (7/10) + im.score * (3/10), "series_combined", none⟩) ∧
    (¬ (0 < em.score ∧ 0 < im.score) → 6/10 < em.score →
      seriesCombine em im = em) ∧
    (¬ (0 < em.score ∧ 0 < im.score) → ¬ 6/10 < em.score →
      7/10 < im.score → 2/10 < em.score →
      seriesCombine em im =
        ⟨im.score * (6/10) + em.score * (4/10), "series_imdb_weighted", none⟩) ∧
    (¬ (0 < em.score ∧ 0 < im.score) → ¬ 6/10 < em.score →
      ¬ (7/10 < im.score ∧ 2/10 < em.score) →
      seriesCombine em im = if im.score < em.score then em else im) := by
  unfold seriesCombine
  refine ⟨fun h1 h2 => ?_, fun h1 h2 => ?_, fun h1 h2 h3 h4 => ?_,
    fun h1 h2 h3 => ?_⟩
  · rw [if_pos ⟨h1, h2⟩]
  · rw [if_neg h1, if_pos h2]
  · rw [if_neg h1, if_neg h2, if_pos ⟨h3, h4⟩]
  · rw [if_neg h1, if_neg h2, if_neg h3]

/-- Witness for C4: two full-score matcher results combine to
0.7 + 0.3 = 1.0 with method `series_combined`. -/
theorem c4_series_combination_witness :
    seriesCombine ⟨1, "exact_episode", some 0⟩ ⟨1, "direct_imdb", none⟩ =
      ⟨1 * (7/10) + 1 * (3/10), "series_combined", none⟩ :=
  (c4_series_combination ⟨1, "exact_episode", some 0⟩ ⟨1, "direct_imdb", none⟩).1
    (by norm_num) (by norm_num)

/-- C6 counterexample: text normalization is not idempotent.  Dropping
the apostrophe of `"n'o"` creates the token `no`, which the abbreviation
pass of a second normalization expands to `number`. -/
theorem c6_normalize_not_idempotent_counterexample :
    normalizeText (normalizeText "n'o".data) ≠ normalizeText "n'o".data ∧
    normalizeText "n'o".data = "no".data ∧
    normalizeText "no".data = "number".data := by decide

/-- C6 (amended): idempotence fails (see the counterexample — a first
pass can create fresh abbreviation/roman/release-pattern occurrences that
a second pass rewrites), but the output-shape invariant of the
normalized-text data model holds: whenever the output is nonempty, each
of its space-separated tokens is nonempty, is not a stop word, and
contains no space. -/
theorem c6_normalization_token_invariant_amended (s : List Char) :
    ∀ t ∈ splitSp (normalizeText s), normalizeText s ≠ [] →
      t ≠ [] ∧ isStopWord t = false ∧ ' ' ∉ t := by
  intro t ht hne
  by_cases hs : s = []
  · subst hs; simp [normalizeText] at hne
  · have hdef : normalizeText s =
        joinSp ((splitSp (normalizePre s)).filter
          (fun w => w ≠ [] && !isStopWord w)) := by
      unfold normalizeText; rw [if_neg hs]
    set l := (splitSp (normalizePre s)).filter (fun w => w ≠ [] && !isStopWord w)
      with hl
    have hlne : l ≠ [] := by
      intro h0
      apply hne
      rw [hdef, h0]
      rfl
    have hsp : ∀ u ∈ l, ' ' ∉ u := by
      intro u hu
      exact splitSp_no_space (normalizePre s) u (List.mem_of_mem_filter hu)
    rw [hdef, splitSp_joinSp l hlne hsp] at ht
    have hp := List.of_mem_filter ht
    simp only [Bool.and_eq_true, ne_eq, decide_not, Bool.not_eq_eq_eq_not,
      Bool.not_true, decide_eq_false_iff_not] at hp
    refine ⟨?_, ?_, hsp t ht⟩
    · simpa using hp.1
    · simpa using hp.2

/-- Witness for C6 (amended): the token `hello` of
`normalize("hello world")` is nonempty, not a stop word, space-free. -/
theorem c6_normalization_token_invariant_witness :
    "hello".data ≠ [] ∧ isStopWord "hello".data = false ∧ ' ' ∉ "hello".data :=
  c6_normalization_token_invariant_amended "hello world".data "hello".data
    (by decide) (by decide)

theorem minQ_le_left (a b : ℚ) : minQ a b ≤ a := by
  unfold minQ; split
  · exact le_refl a
  · linarith [lt_of_not_le (by assumption : ¬ a ≤ b)]

theorem minQ_le_right (a b : ℚ) : minQ a b ≤ b := by
  unfold minQ; split
  · assumption
  · exact le_refl b

theorem le_minQ (a b c : ℚ) (h1 : c ≤ a) (h2 : c ≤ b) : c ≤ minQ a b := by
  unfold minQ; split <;> assumption

theorem maxQ_le (a b c : ℚ) (h1 : a ≤ c) (h2 : b ≤ c) : maxQ a b ≤ c := by
  unfold maxQ; split <;> assumption

theorem le_maxQ_left (a b : ℚ) : a ≤ maxQ a b := by
  unfold maxQ; split
  · assumption
  · exact le_refl a

theorem sortMatches_pair (a b : List Char × MatchResult) :
    sortMatches [a, b] =
      if cmpMatches a.2 b.2 ≤ 0 then [a, b] else [b, a] := by
  by_cases h : cmpMatches a.2 b.2 ≤ 0 <;>
    simp [sortMatches, stableSortBy, insertSorted, h]

/-- C5 (amended): for exactly two candidates the ranking obeys the
spec's rule — scores within 0.01 are ordered by the method-priority table
(stable when the priorities tie), other pairs by score descending.  For
three or more candidates the comparator can demand a cyclic ordering, so
the rule cannot hold of the output in general (see counterexample). -/
theorem c5_two_candidate_ranking_amended (a b : List Char × MatchResult) :
    (absDiffQ a.2.score b.2.score < 1/100 →
      methodPriority b.2.method ≤ methodPriority a.2.method →
      sortMatches [a, b] = [a, b]) ∧
    (absDiffQ a.2.score b.2.score < 1/100 →
      methodPriority a.2.method < methodPriority b.2.method →
      sortMatches [a, b] = [b, a]) ∧
    (¬ absDiffQ a.2.score b.2.score < 1/100 → b.2.score ≤ a.2.score →
      sortMatches [a, b] = [a, b]) ∧
    (¬ absDiffQ a.2.score b.2.score < 1/100 → a.2.score < b.2.score →
      sortMatches [a, b] = [b, a]) := by
  refine ⟨fun h1 h2 => ?_, fun h1 h2 => ?_, fun h1 h2 => ?_, fun h1 h2 => ?_⟩ <;>
    rw [sortMatches_pair]
  · rw [if_pos]
    unfold cmpMatches
    rw [if_pos h1]
    have : (methodPriority b.2.method : ℚ) ≤ (methodPriority a.2.method : ℚ) :=
      Nat.cast_le.mpr h2
    linarith
  · rw [if_neg]
    unfold cmpMatches
    rw [if_pos h1]
    have : (methodPriority a.2.method : ℚ) < (methodPriority b.2.method : ℚ) :=
      Nat.cast_lt.mpr h2
    intro hle
    linarith
  · rw [if_pos]
    unfold cmpMatches
    rw [if_neg h1]
    linarith
  · rw [if_neg]
    unfold cmpMatches
    rw [if_neg h1]
    intro hle
    linarith

/-- Witness for C5 (amended): a candidate scoring 0.699 with method
`direct_imdb` ranks before one scoring 0.701 with method
`enhanced_title_match` (difference 0.002 < 0.01, priority 10 > 7). -/
theorem c5_two_candidate_ranking_witness :
    sortMatches
      [("file1".data, ⟨701/1000, "enhanced_title_match", none⟩),
       ("file2".data, ⟨699/1000, "direct_imdb", none⟩)] =
      [("file2".data, ⟨699/1000, "direct_imdb", none⟩),
       ("file1".data, ⟨701/1000, "enhanced_title_match", none⟩)] :=
  (c5_two_candidate_ranking_amended
    ("file1".data, ⟨701/1000, "enhanced_title_match", none⟩)
    ("file2".data, ⟨699/1000, "direct_imdb", none⟩)).2.1
    (by decide) (by decide)

/-- C5 counterexample: the claimed ranking property fails with three
candidates.  Scores 0.700/0.708/0.716 with methods `direct_imdb` /
`exact_episode` / `series_combined` demand a cycle — 0.700 before 0.708
and 0.708 before 0.716 by near-tie priority, but 0.716 before 0.700 by
score — so the sorted output violates the property at some pair. -/
theorem c5_ranking_property_counterexample :
    specRankedBool (sortMatches
      [("x".data, ⟨700/1000, "direct_imdb", none⟩),
       ("y".data, ⟨708/1000, "exact_episode", none⟩),
       ("z".data, ⟨716/1000, "series_combined", none⟩)]) = false := by decide

/-- C8: the episode matcher returns score 1.0, method `exact_episode`,
whenever some member of the ordered exact season/episode pattern family
matches (the first matching pattern, recorded in `pat`, wins); concretely
`matchEpisode("Show.S01E02.srt", 1, 2)` scores 1.0 via the first family
member, while the season mismatch `matchEpisode("Show.S02E02.srt", 1, 2)`
scores 0 < 1. -/
theorem c8_exact_episode :
    (∀ (f : List Char) (s e i : Nat),
      firstExactEpisodeIdx (toLowerL f) s e = some i →
      matchesEpisode f s e = ⟨1, "exact_episode", some i⟩) ∧
    matchesEpisode "Show.S01E02.srt".data 1 2 = ⟨1, "exact_episode", some 0⟩ ∧
    (matchesEpisode "Show.S02E02.srt".data 1 2).score < 1 := by
  refine ⟨fun f s e i hi => ?_, by decide, by decide⟩
  simp only [matchesEpisode, hi]

/-- Witness for C8: the `1x02` family member (index 2) fires on
`"Show 1x02 final"`. -/
theorem c8_exact_episode_witness :
    matchesEpisode "Show 1x02 final".data 1 2 = ⟨1, "exact_episode", some 2⟩ :=
  c8_exact_episode.1 "Show 1x02 final".data 1 2 2 (by decide)

theorem yearLoop_eq_find (f : List Char) (l : List (List Char)) :
    yearLoop f l = l.find? (validYear f) := by
  induction l with
  | nil => rfl
  | cons y ys ih =>
    unfold yearLoop
    rw [List.find?_cons]
    by_cases h : validYear f y <;> simp [h, ih]

/-- C9 (amended): year extraction returns `none` exactly when the year
regex matches nothing; otherwise it returns the first matched run that is
in [1920, 2030] with a resolution-free context window, FALLING BACK to
the first matched run (whatever its range or context) when no run
qualifies.  Every returned run has the year-regex shape, so a resolution
run such as `2160p` is indeed never extracted. -/
theorem c9_year_extraction_amended (f : List Char) :
    (extractYear f =
      if yearRuns f = [] then none
      else ((yearRuns f).find? (validYear f)).orElse
        (fun _ => (yearRuns f).head?)) ∧
    (∀ y, extractYear f = some y → yearShape y = true) := by
  have hdef : extractYear f =
      if yearRuns f = [] then none
      else ((yearRuns f).find? (validYear f)).orElse
        (fun _ => (yearRuns f).head?) := by
    simp only [extractYear, yearLoop_eq_find]
    by_cases hnil : yearRuns f = []
    · simp [hnil]
    · simp only [if_neg hnil]
      rcases h : (yearRuns f).find? (validYear f) with _ | y <;>
        simp [h, Option.orElse]
  refine ⟨hdef, fun y hy => ?_⟩
  rw [hdef] at hy
  have hmem : y ∈ yearRuns f := by
    by_cases hnil : yearRuns f = []
    · rw [if_pos hnil] at hy; exact absurd hy (by simp)
    · rw [if_neg hnil] at hy
      rcases hf : (yearRuns f).find? (validYear f) with _ | z
      · rw [hf] at hy
        simp only [Option.orElse] at hy
        exact List.mem_of_mem_head? hy
      · rw [hf] at hy
        simp only [Option.orElse] at hy
        cases hy
        exact List.mem_of_find?_eq_some hf
  exact List.of_mem_filter hmem

/-- Witness for C9 (amended): the extracted year `1975` of
`"Movie.1975.srt"` has the year-regex shape. -/
theorem c9_year_extraction_witness : yearShape "1975".data = true :=
  (c9_year_extraction_amended "Movie.1975.srt".data).2 "1975".data (by decide)

/-- C9 counterexample: in `"Movie.1080p.1957.srt"` the only matched year
run, `1957`, has the resolution mark `1080p` inside its context window,
so no run satisfies the claim's condition and the claim demands that no
year be returned — but the code's `yearMatches[0]` fallback still
returns `1957`. -/
theorem c9_year_fallback_counterexample :
    (yearRuns "Movie.1080p.1957.srt".data).all
      (fun y => !validYear "Movie.1080p.1957.srt".data y) = true ∧
    extractYear "Movie.1080p.1957.srt".data = some "1957".data := by decide

theorem jaccard_nonneg (a b : List Char) : 0 ≤ calculateJaccardSimilarity a b := by
  simp only [calculateJaccardSimilarity]
  split
  · exact le_refl 0
  · positivity

theorem jaccard_le_one (a b : List Char) : calculateJaccardSimilarity a b ≤ 1 := by
  simp only [calculateJaccardSimilarity]
  split
  · norm_num
  · rename_i h
    have hle : ((a.dedup).filter (fun c => b.contains c)).length ≤
        ((a ++ b).dedup).length := by
      rw [dedupInterLen, dedupUnionLen]
      exact Finset.card_le_card Finset.inter_subset_union
    have hpos : (0 : ℚ) < (((a ++ b).dedup).length : ℚ) := by
      exact_mod_cast Nat.pos_of_ne_zero h
    rw [div_le_one hpos]
    exact_mod_cast hle

theorem phonetic_nonneg (a b : List Char) :
    0 ≤ calculatePhoneticSimilarity a b := by
  simp only [calculatePhoneticSimilarity]
  split
  · exact le_refl 0
  · positivity

theorem phonetic_le_one (a b : List Char) :
    calculatePhoneticSimilarity a b ≤ 1 := by
  simp only [calculatePhoneticSimilarity]
  split
  · norm_num
  · rename_i h
    have h1 := List.countP_le_length
      (fun w1 => (splitSp b).any
        (fun w2 => generatePhoneticCode w2 == generatePhoneticCode w1) &&
        decide (generatePhoneticCode w1 ≠ [])) (l := splitSp a)
    have h2 : (splitSp a).length ≤ max (splitSp a).length (splitSp b).length :=
      Nat.le_max_left _ _
    have hpos : (0 : ℚ) < ((max (splitSp a).length (splitSp b).length : ℕ) : ℚ) := by
      exact_mod_cast Nat.pos_of_ne_zero h
    rw [div_le_one hpos]
    exact_mod_cast le_trans h1 h2

theorem ngram_nonneg (a b : List Char) (n : Nat) :
    0 ≤ calculateNGramSimilarity a b n := by
  simp only [calculateNGramSimilarity]
  split
  · norm_num
  · split
    · exact le_refl 0
    · positivity

theorem ngram_le_one (a b : List Char) (n : Nat) :
    calculateNGramSimilarity a b n ≤ 1 := by
  simp only [calculateNGramSimilarity]
  split
  · norm_num
  · split
    · norm_num
    · rename_i hcond hcond2
      have hne : ¬ generateNGrams a n = [] := by
        intro h
        simp [h] at hcond2
      have hle : (((generateNGrams a n).dedup).filter
            (fun g => (generateNGrams b n).contains g)).length ≤
          (((generateNGrams a n) ++ (generateNGrams b n)).dedup).length := by
        rw [dedupInterLen, dedupUnionLen]
        exact Finset.card_le_card Finset.inter_subset_union
      have hpos : (0 : ℚ) <
          ((((generateNGrams a n) ++ (generateNGrams b n)).dedup).length : ℚ) := by
        have h0 : ((generateNGrams a n) ++ (generateNGrams b n)).dedup ≠ [] := by
          simp only [ne_eq, List.dedup_eq_nil, List.append_eq_nil]
          intro hc
          exact hne hc.1
        exact_mod_cast List.length_pos.mpr h0
      rw [div_le_one hpos]
      exact_mod_cast hle

theorem bestPartialGo_bounds (w1 : List Char) (isEx : List Char → Bool)
    (u2 : List (List Char)) :
    ∀ (l : List (List Char)) (acc : ℚ × Option (List Char)),
      0 ≤ acc.1 → acc.1 ≤ 1 →
      0 ≤ (bestPartialGo w1 isEx u2 l acc).1 ∧
        (bestPartialGo w1 isEx u2 l acc).1 ≤ 1 := by
  intro l
  induction l with
  | nil => intro acc h0 h1; exact ⟨h0, h1⟩
  | cons w2 rest ih =>
    intro acc h0 h1
    unfold bestPartialGo
    split
    · exact ih acc h0 h1
    · split
      · exact ih acc h0 h1
      · dsimp only
        split
        · exact ih _ (levSim_nonneg w1 w2) (levSim_le_one w1 w2)
        · exact ih acc h0 h1

theorem bestPartial_bounds (w1 : List Char) (isEx : List Char → Bool)
    (u2 ws2 : List (List Char)) :
    0 ≤ (bestPartial w1 isEx u2 ws2).1 ∧ (bestPartial w1 isEx u2 ws2).1 ≤ 1 :=
  bestPartialGo_bounds w1 isEx u2 ws2 (0, none) (le_refl 0) (by norm_num)

theorem partialLoop_nonneg (isEx : List Char → Bool) (ws2 : List (List Char)) :
    ∀ (l : List (List Char)) (acc : ℚ × List (List Char)), 0 ≤ acc.1 →
      0 ≤ (partialLoop isEx ws2 l acc).1 := by
  intro l
  induction l with
  | nil => intro acc h0; exact h0
  | cons w1 rest ih =>
    intro acc h0
    unfold partialLoop
    split
    · exact ih acc h0
    · dsimp only
      split
      · rename_i bw hbw
        refine ih _ ?_
        show 0 ≤ acc.1 + (bestPartial w1 isEx acc.2 ws2).1
        have hb := (bestPartial_bounds w1 isEx acc.2 ws2).1
        linarith
      · exact ih acc h0

theorem partialLoop_le (isEx : List Char → Bool) (ws2 : List (List Char)) :
    ∀ (l : List (List Char)) (acc : ℚ × List (List Char)),
      (partialLoop isEx ws2 l acc).1 ≤
        acc.1 + (l.countP (fun w => !isEx w) : ℚ) := by
  intro l
  induction l with
  | nil => intro acc; simp [partialLoop]
  | cons w1 rest ih =>
    intro acc
    unfold partialLoop
    rw [List.countP_cons]
    split
    · rename_i hex
      have hfalse : (!isEx w1) = false := by simp [hex]
      rw [hfalse]
      simp only [if_false, Bool.false_eq_true]
      have := ih acc
      push_cast
      linarith
    · rename_i hex
      have htrue : (!isEx w1) = true := by
        cases h : isEx w1
        · rfl
        · exact absurd h hex
      rw [htrue]
      simp only [if_true]
      split
      · rename_i bw hbw
        have hrec := ih (acc.1 + (bestPartial w1 isEx acc.2 ws2).1, bw :: acc.2)
        have hb := (bestPartial_bounds w1 isEx acc.2 ws2).2
        dsimp only at hrec
        push_cast at hrec ⊢
        linarith
      · have := ih acc
        push_cast
        linarith

theorem exactCount_le (ws1 ws2 : List (List Char)) :
    ((ws1.dedup).filter (fun w => ws2.contains w)).length ≤
      ws1.countP (fun w => ws1.contains w && ws2.contains w) := by
  have hnd : ((ws1.dedup).filter (fun w => ws2.contains w)).Nodup :=
    (List.nodup_dedup ws1).filter _
  have h1 : ((ws1.dedup).filter (fun w => ws2.contains w)).toFinset =
      (ws1.filter (fun w => ws1.contains w && ws2.contains w)).toFinset := by
    ext w
    simp only [List.mem_toFinset, List.mem_filter, List.mem_dedup,
      Bool.and_eq_true, List.elem_iff]
    tauto
  calc ((ws1.dedup).filter (fun w => ws2.contains w)).length
      = ((ws1.dedup).filter (fun w => ws2.contains w)).toFinset.card :=
        (List.toFinset_card_of_nodup hnd).symm
    _ = (ws1.filter (fun w => ws1.contains w && ws2.contains w)).toFinset.card := by
        rw [h1]
    _ ≤ (ws1.filter (fun w => ws1.contains w && ws2.contains w)).length :=
        List.toFinset_card_le _
    _ = ws1.countP (fun w => ws1.contains w && ws2.contains w) :=
        (List.countP_eq_length_filter _ _).symm

theorem wordSim_bounds (ws1 ws2 : List (List Char)) :
    0 ≤ calculateWordSimilarity ws1 ws2 ∧ calculateWordSimilarity ws1 ws2 ≤ 1 := by
  simp only [calculateWordSimilarity]
  split
  · norm_num
  · split
    · norm_num
    · rename_i hcond hcond2
      have hne1 : ws1 ≠ [] := by
        intro h
        simp [h] at hcond2
      have hlen1 : 1 ≤ ws1.length := by
        rcases ws1 with _ | ⟨w, ws⟩
        · exact absurd rfl hne1
        · simp
      set E : ℚ := (((ws1.dedup).filter (fun w => ws2.contains w)).length : ℚ)
        with hE
      set isEx := fun w => ws1.contains w && ws2.contains w with hisEx
      set pm : ℚ := (partialLoop isEx ws2 ws1 (0, [])).1 with hpm
      set t : ℚ := max (ws1.length : ℚ) (ws2.length : ℚ) with ht
      have htpos : (0 : ℚ) < t := by
        have h1 : (1 : ℚ) ≤ (ws1.length : ℚ) := by exact_mod_cast hlen1
        have h2 : (ws1.length : ℚ) ≤ t := le_max_left _ _
        linarith
      have hE0 : 0 ≤ E := by rw [hE]; positivity
      have hpm0 : 0 ≤ pm := partialLoop_nonneg isEx ws2 ws1 (0, []) (le_refl 0)
      have hpmle : pm ≤ (ws1.countP (fun w => !isEx w) : ℚ) := by
        have := partialLoop_le isEx ws2 ws1 (0, [])
        simpa using this
      have hexle : E ≤ (ws1.countP isEx : ℚ) := by
        rw [hE]
        exact_mod_cast exactCount_le ws1 ws2
      have hsum : (ws1.countP isEx : ℚ) + (ws1.countP (fun w => !isEx w) : ℚ) =
          (ws1.length : ℚ) := by
        have hlen := List.length_eq_countP_add_countP isEx ws1
        have hcongr : ws1.countP (fun a => decide ¬ isEx a = true) =
            ws1.countP (fun w => !isEx w) :=
          List.countP_congr (fun w _ => by cases h : isEx w <;> simp [h])
        rw [hcongr] at hlen
        exact_mod_cast hlen.symm
      have hlmax : (ws1.length : ℚ) ≤ t := le_max_left _ _
      constructor
      · have hd1 : 0 ≤ E / t := div_nonneg hE0 (le_of_lt htpos)
        have hd2 : 0 ≤ pm / t := div_nonneg hpm0 (le_of_lt htpos)
        nlinarith
      · have hd2 : 0 ≤ pm / t := div_nonneg hpm0 (le_of_lt htpos)
        have step1 : E / t + pm / t * (7 / 10) ≤ E / t + pm / t := by linarith
        have step2 : E / t + pm / t = (E + pm) / t := (add_div E pm t).symm
        have step3 : (E + pm) / t ≤ 1 := by
          rw [div_le_one htpos]
          linarith
        linarith

/-- C7: the similarity score always lies in [0, 1] — each special branch
is bounded directly, and the weighted five-metric combination (including
the token sub-metric's 0.7× partial-match bonus) is a nonnegative sum
clamped above by `Math.min(1.0, ·)`. -/
theorem c7_similarity_bounded (a b : List Char) :
    0 ≤ calculateSimilarity a b ∧ calculateSimilarity a b ≤ 1 := by
  by_cases h0 : a = []
  · constructor <;> simp [calculateSimilarity, h0]
  by_cases h0b : b = []
  · constructor <;> simp [calculateSimilarity, h0b]
  by_cases heq : normalizeText a = normalizeText b
  · constructor <;> simp [calculateSimilarity, h0, h0b, heq]
  by_cases hlen : (normalizeText a).length = 0 ∨ (normalizeText b).length = 0
  · rcases hlen with h | h <;>
      constructor <;> simp [calculateSimilarity, h0, h0b, heq, h]
  push_neg at hlen
  have hl1 : 0 < (normalizeText a).length := Nat.pos_of_ne_zero hlen.1
  have hl2 : 0 < (normalizeText b).length := Nat.pos_of_ne_zero hlen.2
  have htpos : (0 : ℚ) <
      max ((normalizeText a).length : ℚ) ((normalizeText b).length : ℚ) := by
    have h1 : (0 : ℚ) < ((normalizeText a).length : ℚ) := by exact_mod_cast hl1
    exact lt_of_lt_of_le h1 (le_max_left _ _)
  by_cases hsub : containsSub (normalizeText a) (normalizeText b) = true ∨
      containsSub (normalizeText b) (normalizeText a) = true
  · have hratio0 : (0 : ℚ) ≤
        min ((normalizeText a).length : ℚ) ((normalizeText b).length : ℚ) /
          max ((normalizeText a).length : ℚ) ((normalizeText b).length : ℚ) := by
      apply div_nonneg _ (le_of_lt htpos)
      exact le_min (by positivity) (by positivity)
    have hratio1 :
        min ((normalizeText a).length : ℚ) ((normalizeText b).length : ℚ) /
          max ((normalizeText a).length : ℚ) ((normalizeText b).length : ℚ) ≤ 1 := by
      rw [div_le_one htpos]
      exact min_le_max
    rcases hsub with h | h <;>
      constructor <;>
        simp [calculateSimilarity, h0, h0b, heq, hlen.1, hlen.2, h] <;>
          linarith
  push_neg at hsub
  have hm1 := levSim_nonneg (normalizeText a) (normalizeText b)
  have hm2 := jaccard_nonneg (normalizeText a) (normalizeText b)
  have hm3 := phonetic_nonneg (normalizeText a) (normalizeText b)
  have hm4 := (wordSim_bounds (splitSp (normalizeText a)) (splitSp (normalizeText b))).1
  have hm5 := ngram_nonneg (normalizeText a) (normalizeText b) 2
  have hsum : 0 ≤
      calculateLevenshteinSimilarity (normalizeText a) (normalizeText b) * (25/100) +
      calculateJaccardSimilarity (normalizeText a) (normalizeText b) * (20/100) +
      calculatePhoneticSimilarity (normalizeText a) (normalizeText b) * (15/100) +
      calculateWordSimilarity (splitSp (normalizeText a)) (splitSp (normalizeText b)) * (25/100) +
      calculateNGramSimilarity (normalizeText a) (normalizeText b) 2 * (15/100) := by
    linarith
  constructor <;>
    simp [calculateSimilarity, h0, h0b, heq, hlen.1, hlen.2, hsub.1, hsub.2]
  · exact le_minQ _ _ _ (by norm_num) hsum
  · exact minQ_le_left _ _

/-- C1 (amended): the identifier matcher is total for every identifier
made of word characters — it returns a result on every filename, and an
identifier matching nothing (such as the malformed `"ttabc"`) yields the
no-match result of score 0, method `no_imdb_match`, instead of failing.
The engine is NOT total on its full input type: an identifier containing
regex metacharacters makes pattern construction throw (counterexample
`"tt("`). -/
theorem c1_identifier_matcher_totality_amended :
    (∀ f id : List Char, idRegexSafe id = true →
      (matchesImdbId f id).isSome = true) ∧
    matchesImdbId "subtitle.file.xyz".data "ttabc".data =
      some ⟨0, "no_imdb_match", none⟩ := by
  refine ⟨fun f id h => ?_, by decide⟩
  unfold matchesImdbId
  rw [h]
  simp only [Bool.not_true, Bool.false_eq_true, if_false]
  repeat' split
  all_goals simp

/-- Witness for C1 (amended): the well-formed identifier `tt0111161` is
safe, so the matcher returns a result on an arbitrary filename. -/
theorem c1_identifier_matcher_totality_witness :
    (matchesImdbId "Movie.2020.xyz".data "tt0111161".data).isSome = true :=
  c1_identifier_matcher_totality_amended.1
    "Movie.2020.xyz".data "tt0111161".data (by decide)

/-- C1 counterexample: with identifier `"tt("` the first constructed
pattern text `\btt(\b` is an invalid regex (unterminated group), so the
JS `directPatterns` array literal throws a `SyntaxError` — the matcher
raises instead of returning a score-0 no-match result, and the handler
fails the whole request to an empty response. -/
theorem c1_identifier_matcher_raises_counterexample :
    matchesImdbId "Movie.2020.xyz".data "tt(".data = none := by decide

/-- The filename-analysis raw score without target title and year
signals: only the quality bonus (+0.1) and the negative-marker penalty
(−0.3) remain, so it never exceeds 0.1. -/
theorem analyzeScoreRaw_noMeta_le (f : List Char) :
    analyzeScoreRaw f none none ≤ 1/10 := by
  unfold analyzeScoreRaw
  dsimp only
  split <;> split <;> norm_num

/-- C10: for a movie request without target metadata, a candidate whose
identifier match scores 0 gets a combined score of at most 0.1 (the
filename-analysis ceiling), below both the engine's default minimum 0.4
and the handler's minimum 0.3, so it never appears in the ranked
output. -/
theorem c10_movie_no_title_low_score (f id : List Char) (r : MatchResult)
    (hm : matchesImdbId f id = some r) (h0 : r.score = 0) :
    ∃ m : MatchResult, movieMatchNoMeta f id = some m ∧ 0 ≤ m.score ∧
      m.score ≤ 1/10 ∧
      findBestMatchesMovieNoMeta [f] id (3/10) = some [] ∧
      findBestMatchesMovieNoMeta [f] id (2/5) = some [] := by
  set fn := analyzeFilename f none none with hfndef
  have hfn0 : 0 ≤ fn.score := le_maxQ_left 0 _
  have hfn1 : fn.score ≤ 1/10 := by
    show maxQ 0 (minQ 1 (analyzeScoreRaw f none none)) ≤ 1/10
    apply maxQ_le _ _ _ (by norm_num)
    exact le_trans (minQ_le_right 1 _) (analyzeScoreRaw_noMeta_le f)
  have hstr : movieStrategiesNoMeta f id =
      some [(r, 7/10), (fn, 4/10)] := by
    unfold movieStrategiesNoMeta
    rw [hm]
    rfl
  have hq1 : ¬ ((5 : ℚ)/10 < r.score) := by rw [h0]; norm_num
  have hq2 : ¬ ((5 : ℚ)/10 < fn.score) := by linarith
  have hcomb : combineMovie [(r, 7/10), (fn, 4/10)] =
      if r.score < fn.score then fn else r := by
    unfold combineMovie
    simp only [List.foldl_cons, List.foldl_nil, List.filter_cons,
      List.filter_nil, hq1, hq2, decide_False, List.length_nil]
    norm_num
    split <;> rfl
  have hms : movieMatchNoMeta f id =
      some (if r.score < fn.score then fn else r) := by
    unfold movieMatchNoMeta
    rw [hstr]
    simp [hcomb]
  set m := if r.score < fn.score then fn else r with hmdef
  have hb : 0 ≤ m.score ∧ m.score ≤ 1/10 := by
    rw [hmdef]
    split
    · exact ⟨hfn0, hfn1⟩
    · rw [h0]; norm_num
  have hfb : ∀ ms : ℚ, 1/10 < ms →
      findBestMatchesMovieNoMeta [f] id ms = some [] := by
    intro ms hlt
    have hnot : ¬ ms ≤ m.score := by linarith [hb.2]
    have hstep : perFileMatches id [f] = some [(f, m)] := by
      unfold perFileMatches
      rw [hms]
      rfl
    unfold findBestMatchesMovieNoMeta
    rw [hstep]
    show some (sortMatches (List.filter (fun p => decide (ms ≤ p.2.score))
      [(f, m)])) = some []
    simp only [List.filter_cons, List.filter_nil]
    rw [if_neg (by simpa using hnot)]
    rfl
  exact ⟨m, hms, hb.1, hb.2, hfb (3/10) (by norm_num), hfb (2/5) (by norm_num)⟩

/-- Witness for C10: `"subs.xyz"` has no identifier signal for
`tt0111161` (score 0), and indeed the handler-threshold ranking of that
single candidate is empty. -/
theorem c10_movie_no_title_low_score_witness :
    findBestMatchesMovieNoMeta ["subs.xyz".data] "tt0111161".data (3/10) =
      some [] := by
  obtain ⟨m, h1, h2, h3, h4, h5⟩ :=
    c10_movie_no_title_low_score "subs.xyz".data "tt0111161".data
      ⟨0, "no_imdb_match", none⟩ (by decide) rfl
  exact h4

end Engine
